import Mathlib

/-!
Shallow embedding of the `wgsl_plus` preprocessor (src/lib.rs, src/expression.rs).

Strings from the Rust source are modelled as `List Char` so that the
line-splitting, trimming and character-scanning loops of the source can be
reproduced and reasoned about structurally.  Rust's `i64` values are modelled
as unbounded `Int`; where the source relies on 64-bit two's-complement
behaviour (the `1 << i` shifts building the default environment) the
wrap-around is made explicit via `wrap64`.  Rust's `f64` payload of
`WgslLiteral::Float` is modelled as `Rat`: no claim under scrutiny depends on
binary floating-point rounding or NaN, and the derived cross-variant
comparison behaviour (which never inspects the float payload) is preserved
exactly.  A Rust panic (integer division by zero) is modelled by the
distinguished outcome `RunRes.fatal`, kept apart from returned `WgslError`
values.  Recursions of the source that are not structurally decreasing
(the character-level expression parser, the line-level segment parser, and
include resolution, which can loop forever on cyclic includes) take an
explicit fuel argument; exhausted fuel yields the artificial error
`WgslError.RecursionLimit`, which the source can only realise as
non-termination or stack overflow.
-/

/-- Rust strings, modelled as their character sequences. -/
abbrev Str : Type := List Char

/-- Coercion from Lean string literals, for concrete test inputs. -/
def str (s : String) : Str := s.toList

/-- The characters with the Unicode `White_Space` property, which is what
Rust's `char::is_whitespace` tests: U+0009–U+000D, U+0020, U+0085, U+00A0,
U+1680, U+2000–U+200A, U+2028, U+2029, U+202F, U+205F, U+3000. -/
def wsChars : Str :=
  ['\x09', '\x0a', '\x0b', '\x0c', '\x0d', '\x20',
   '\u0085', '\u00a0', '\u1680',
   '\u2000', '\u2001', '\u2002', '\u2003', '\u2004',
   '\u2005', '\u2006', '\u2007', '\u2008', '\u2009', '\u200a',
   '\u2028', '\u2029', '\u202f', '\u205f', '\u3000']

/-- Model of Rust `char::is_whitespace`: membership in the Unicode
`White_Space` set. -/
def rustIsWhitespace (c : Char) : Bool := wsChars.contains c

/-- Model of Rust `str::trim`: drop Unicode whitespace from both ends. -/
def trimChars (s : Str) : Str :=
  ((s.dropWhile rustIsWhitespace).reverse.dropWhile rustIsWhitespace).reverse

/-- Model of Rust `str::starts_with` on string patterns. -/
def startsWith (pat s : Str) : Bool := s.take pat.length == pat

/-- Split a character sequence at every newline character; the result always
has one more piece than there are newlines. -/
def splitNL : Str → List Str
  | [] => [[]]
  | c :: rest =>
    if c = '\n' then [] :: splitNL rest
    else
      match splitNL rest with
      | h :: t => (c :: h) :: t
      | [] => [[c]]

/-- Drop a single trailing carriage return, as Rust `str::lines` does on each
produced line. -/
def stripCR (l : Str) : Str :=
  if l.getLast? = some '\r' then l.dropLast else l

/-- Model of Rust `str::lines`: split on newline terminators, with no trailing
empty line when the text ends in a newline, and a trailing carriage return
stripped from every line. -/
def rustLines (s : Str) : List Str :=
  if s = [] then []
  else
    let parts := splitNL s
    let parts := if parts.getLast? = some [] then parts.dropLast else parts
    parts.map stripCR

/-- Model of Rust `str::split_once(' ')` with the source's
`unwrap_or((&line, ""))` fallback. -/
def splitOnceSpace : Str → Str × Str
  | [] => ([], [])
  | c :: rest =>
    if c = ' ' then ([], rest)
    else
      let (a, b) := splitOnceSpace rest
      (c :: a, b)

/-- Reduction of an integer to the 64-bit two's-complement representative in
`[-2^63, 2^63)`. -/
def wrap64 (n : Int) : Int := (n + 2 ^ 63) % 2 ^ 64 - 2 ^ 63

/-- Model of the Rust `i64` shift `a << b` (bits shifted beyond the width are
discarded). -/
def i64shl (a : Int) (b : Nat) : Int := wrap64 (a * 2 ^ b)

/-- Two's-complement bit pattern of an `i64` value, as a natural number. -/
def toTwos (a : Int) : Nat := ((a % 2 ^ 64)).toNat

/-- Model of Rust `i64` bitwise and. -/
def i64and (a b : Int) : Int := wrap64 (Nat.land (toTwos a) (toTwos b))

/-- Model of Rust `i64` bitwise or. -/
def i64or (a b : Int) : Int := wrap64 (Nat.lor (toTwos a) (toTwos b))

/-- Mirror of `enum WgslLiteral` (src/expression.rs).  The `Float` payload is
modelled as `Rat` in place of `f64`. -/
inductive WgslLiteral : Type where
  | Integer : Int → WgslLiteral
  | Float : Rat → WgslLiteral
  | Bool : Bool → WgslLiteral
deriving DecidableEq, Repr

/-- Variant index of a literal, mirroring the Rust enum discriminant used by
the derived `PartialOrd`. -/
def WgslLiteral.idx : WgslLiteral → Nat
  | .Integer _ => 0
  | .Float _ => 1
  | .Bool _ => 2

/-- Mirror of the derived `PartialOrd::partial_cmp` on `WgslLiteral`: literals
of different variants compare by variant order; literals of the same variant
compare by payload.  With the `Rat` float model the payload comparison is
total (real `f64` would yield `none` only on NaN, which no claim exercises). -/
def litPcmp (a b : WgslLiteral) : Option Ordering :=
  match a, b with
  | .Integer x, .Integer y =>
    some (if x < y then .lt else if x = y then .eq else .gt)
  | .Float x, .Float y =>
    some (if x < y then .lt else if x = y then .eq else .gt)
  | .Bool x, .Bool y =>
    some (if x < y then .lt else if x = y then .eq else .gt)
  | _, _ =>
    some (if a.idx < b.idx then .lt else if a.idx = b.idx then .eq else .gt)

/-- Rust `<` via the derived `PartialOrd`. -/
def litLt (a b : WgslLiteral) : Bool := litPcmp a b == some .lt

/-- Rust `<=` via the derived `PartialOrd`. -/
def litLe (a b : WgslLiteral) : Bool :=
  litPcmp a b == some .lt || litPcmp a b == some .eq

/-- Rust `>` via the derived `PartialOrd`. -/
def litGt (a b : WgslLiteral) : Bool := litPcmp a b == some .gt

/-- Rust `>=` via the derived `PartialOrd`. -/
def litGe (a b : WgslLiteral) : Bool :=
  litPcmp a b == some .gt || litPcmp a b == some .eq

/-- Rust `==` via the derived `PartialEq`: cross-variant literals are unequal,
same-variant literals compare payloads. -/
def litEq (a b : WgslLiteral) : Bool := a == b

/-- Mirror of `enum WgslOperator`. -/
inductive WgslOperator : Type where
  | Add | Subtract | Multiply | Divide | BitwiseAnd | BitwiseOr
deriving DecidableEq, Repr

/-- Mirror of `enum WgslUnaryOperator`. -/
inductive WgslUnaryOperator : Type where
  | Negate | Not | BitwiseNot
deriving DecidableEq, Repr

/-- Mirror of `enum WgslComparison`. -/
inductive WgslComparison : Type where
  | Equal | NotEqual | LessThan | LessThanOrEqual
  | GreaterThan | GreaterThanOrEqual | And | Or
deriving DecidableEq, Repr

/-- Mirror of the kind payload of `std::num::ParseIntError` as produced by
`i64::from_str_radix` on the buffers this program builds (which never carry a
sign). -/
inductive IntErrKind : Type where
  | empty | invalidDigit | posOverflow
deriving DecidableEq, Repr

/-- Mirror of `enum WgslError` (src/lib.rs).  `ParseFloatError`'s payload is
dropped (opaque in std); `ParseIntError` keeps the error kind.
`RecursionLimit` is a model artifact standing for the non-termination /
stack overflow the source exhibits when its non-structural recursions
(expression parsing, segment parsing, cyclic include resolution) do not
bottom out within the provided fuel. -/
inductive WgslError : Type where
  | UnknownOperation : Str → WgslError
  | InvalidIfBlock
  | NoExpression
  | NoClosingParenthesis
  | DuplicatePeriod
  | InvalidBase
  | ParseFloatError
  | ParseIntError : IntErrKind → WgslError
  | LeftoverChars : Str → WgslError
  | UndefinedVariable
  | InvalidExpression
  | NotFound
  | RecursionLimit
deriving DecidableEq, Repr

/-- Mirror of `enum WgslExpression`. -/
inductive WgslExpression : Type where
  | Literal : WgslLiteral → WgslExpression
  | Reference : Str → WgslExpression
  | Operator : WgslExpression → WgslOperator → WgslExpression → WgslExpression
  | Unary : WgslUnaryOperator → WgslExpression → WgslExpression
  | Comparison : WgslExpression → WgslComparison → WgslExpression → WgslExpression
  | Parenthesized : WgslExpression → WgslExpression
deriving DecidableEq, Repr

/-- Mirror of `struct WgslWorkspaceState`: two association maps standing for
the two `HashMap`s. -/
structure WgslWorkspaceState : Type where
  global_variables : List (Str × WgslLiteral)
  local_overrides : List (Str × WgslLiteral)
deriving DecidableEq, Repr

/-- Association-list lookup, modelling `HashMap::get` composed with `copied`. -/
def lookupAL (m : List (Str × WgslLiteral)) (k : Str) : Option WgslLiteral :=
  (m.find? (fun p => p.1 == k)).map (·.2)

/-- Association-list insert, modelling `HashMap::insert`: replace the value at
an existing key, otherwise append a new entry. -/
def insertAL (m : List (Str × WgslLiteral)) (k : Str) (v : WgslLiteral) :
    List (Str × WgslLiteral) :=
  match m with
  | [] => [(k, v)]
  | p :: rest => if p.1 == k then (k, v) :: rest else p :: insertAL rest k v

/-- Mirror of `WgslWorkspaceState::get`: local overrides first, then globals. -/
def WgslWorkspaceState.get (s : WgslWorkspaceState) (k : Str) : Option WgslLiteral :=
  (lookupAL s.local_overrides k).orElse (fun _ => lookupAL s.global_variables k)

/-- Name `BIT_{i}` as built by the `format!` in `WgslWorkspaceState::default`. -/
def bitName (i : Nat) : Str := str ("BIT_" ++ toString i)

/-- Mirror of `impl Default for WgslWorkspaceState`: empty overrides and the
64 global variables `BIT_i ↦ Integer(1 << i)`. -/
def WgslWorkspaceState.default : WgslWorkspaceState :=
  { global_variables :=
      (List.range 64).foldl
        (fun m i => insertAL m (bitName i) (.Integer (i64shl 1 i))) []
    local_overrides := [] }

/-- Outcome of running evaluation code that may return a value, return an
error, or die with a Rust panic (`fatal`, used for integer division by zero
and for the division overflow `i64::MIN / -1`). -/
inductive RunRes (α : Type) : Type where
  | ok : α → RunRes α
  | err : WgslError → RunRes α
  | fatal
deriving DecidableEq, Repr

/-- Sequencing of panics, errors and values, mirroring `?` propagation with
panics aborting everything. -/
def RunRes.bind {α β : Type} : RunRes α → (α → RunRes β) → RunRes β
  | .ok a, f => f a
  | .err e, _ => .err e
  | .fatal, _ => .fatal

/-- Mirror of `WgslExpression::evaluate` (src/expression.rs lines 88-212).
Arithmetic on the unbounded `Int` model omits Rust's debug-mode overflow
panics for `+`, `-`, `*` and unary negation (no claim exercises those);
division by zero, and the division overflow `i64::MIN / -1` which panics
in every build profile, are the explicit `fatal` outcomes the source
realises as native panics. -/
def WgslExpression.evaluate : WgslExpression → WgslWorkspaceState → RunRes WgslLiteral
  | .Literal l, _ => .ok l
  | .Reference r, state =>
    match state.get r with
    | some v => .ok v
    | none => .err .UndefinedVariable
  | .Operator l op r, state =>
    (evaluate l state).bind fun left =>
    (evaluate r state).bind fun right =>
    match op with
    | .Add =>
      match left, right with
      | .Integer a, .Integer b => .ok (.Integer (a + b))
      | .Float a, .Float b => .ok (.Float (a + b))
      | _, _ => .err .InvalidExpression
    | .Subtract =>
      match left, right with
      | .Integer a, .Integer b => .ok (.Integer (a - b))
      | .Float a, .Float b => .ok (.Float (a - b))
      | _, _ => .err .InvalidExpression
    | .Multiply =>
      match left, right with
      | .Integer a, .Integer b => .ok (.Integer (a * b))
      | .Float a, .Float b => .ok (.Float (a * b))
      | _, _ => .err .InvalidExpression
    | .Divide =>
      match left, right with
      | .Integer a, .Integer b =>
        if b = 0 then .fatal
        else if a = -(2 ^ 63) ∧ b = -1 then .fatal
        else .ok (.Integer (Int.tdiv a b))
      | .Float a, .Float b => .ok (.Float (a / b))
      | _, _ => .err .InvalidExpression
    | .BitwiseAnd =>
      match left, right with
      | .Integer a, .Integer b => .ok (.Integer (i64and a b))
      | .Bool a, .Bool b => .ok (.Bool (a && b))
      | _, _ => .err .InvalidExpression
    | .BitwiseOr =>
      match left, right with
      | .Integer a, .Integer b => .ok (.Integer (i64or a b))
      | .Bool a, .Bool b => .ok (.Bool (a || b))
      | _, _ => .err .InvalidExpression
  | .Unary op r, state =>
    (evaluate r state).bind fun right =>
    match op, right with
    | .Negate, .Integer i => .ok (.Integer (-i))
    | .Negate, .Float f => .ok (.Float (-f))
    | .Not, .Bool v => .ok (.Bool (!v))
    | .BitwiseNot, .Integer i => .ok (.Integer (-i - 1))
    | _, _ => .err .InvalidExpression
  | .Comparison l cmp r, state =>
    (evaluate l state).bind fun left =>
    match cmp with
    | .Equal => (evaluate r state).bind fun right => .ok (.Bool (litEq left right))
    | .NotEqual => (evaluate r state).bind fun right => .ok (.Bool (!litEq left right))
    | .LessThan => (evaluate r state).bind fun right => .ok (.Bool (litLt left right))
    | .LessThanOrEqual => (evaluate r state).bind fun right => .ok (.Bool (litLe left right))
    | .GreaterThan => (evaluate r state).bind fun right => .ok (.Bool (litGt left right))
    | .GreaterThanOrEqual => (evaluate r state).bind fun right => .ok (.Bool (litGe left right))
    | .And =>
      match left with
      | .Bool true => evaluate r state
      | .Bool false => .ok (.Bool false)
      | _ => .err .InvalidExpression
    | .Or =>
      match left with
      | .Bool false => evaluate r state
      | .Bool true => .ok (.Bool true)
      | _ => .err .InvalidExpression
  | .Parenthesized e, state => evaluate e state

/-- Numeric value of a digit character, hex letters included, as
`i64::from_str_radix` accepts them. -/
def digitVal (c : Char) : Option Nat :=
  if '0' ≤ c ∧ c ≤ '9' then some (c.toNat - '0'.toNat)
  else if 'a' ≤ c ∧ c ≤ 'f' then some (c.toNat - 'a'.toNat + 10)
  else if 'A' ≤ c ∧ c ≤ 'F' then some (c.toNat - 'A'.toNat + 10)
  else none

/-- Value of a digit sequence in the given radix (underscores are not
accepted here; the scanner never puts them in the buffer). -/
def digitsVal (radix : Nat) (s : Str) : Option Nat :=
  s.foldl
    (fun acc c =>
      acc.bind fun a =>
      (digitVal c).bind fun v =>
      if v < radix then some (a * radix + v) else none)
    (some 0)

/-- Model of `i64::from_str_radix` on the sign-free buffers this program
produces: empty input, an invalid digit, and positive overflow are the
reachable error kinds. -/
def fromStrRadix (s : Str) (radix : Nat) : Except WgslError Int :=
  if s = [] then .error (.ParseIntError .empty)
  else
    match digitsVal radix s with
    | none => .error (.ParseIntError .invalidDigit)
    | some v =>
      if v ≤ 2 ^ 63 - 1 then .ok (Int.ofNat v)
      else .error (.ParseIntError .posOverflow)

/-- Model of `str::parse::<f64>` on the digits-and-one-dot buffers this
program produces, returning the exact rational value.  Binary rounding of the
real `f64` parse is abstracted away; no claim depends on it. -/
def parseFloat (s : Str) : Except WgslError Rat :=
  let intPart := s.takeWhile (fun c => c ≠ '.')
  let rest := s.dropWhile (fun c => c ≠ '.')
  let fracPart := rest.drop 1
  if s = [] ∨ (intPart = [] ∧ fracPart = []) then .error .ParseFloatError
  else
    match digitsVal 10 intPart, digitsVal 10 fracPart with
    | some i, some f =>
      .ok ((i : Rat) + (f : Rat) / ((10 : Rat) ^ fracPart.length))
    | some i, none => if fracPart = [] then .ok (i : Rat) else .error .ParseFloatError
    | none, some f => if intPart = [] then .ok ((f : Rat) / ((10 : Rat) ^ fracPart.length)) else .error .ParseFloatError
    | none, none => .error .ParseFloatError

/-- Mirror of the number-literal scanning loop in `WgslExpression::from_chars`
(src/expression.rs lines 297-351).  State: the accumulated buffer, the
period-seen flag, the radix, the byte offset past the radix prefix, and the
unconsumed characters. -/
def scanNum (buffer : Str) (period : Bool) (radix : Nat) (sliceStart : Nat)
    (chars : Str) : Except WgslError (Str × Bool × Nat × Nat × Str) :=
  match chars with
  | [] => .ok (buffer, period, radix, sliceStart, [])
  | c :: rest =>
    let lc := c.toLower
    if lc.isDigit then scanNum (buffer ++ [c]) period radix sliceStart rest
    else if lc = '_' then scanNum buffer period radix sliceStart rest
    else if lc = '.' then
      if period then .error .DuplicatePeriod
      else scanNum (buffer ++ [c]) true radix sliceStart rest
    else if lc = 'b' then
      if buffer = ['0'] then scanNum (buffer ++ [c]) period 2 2 rest
      else .error .InvalidBase
    else if lc = 'o' then
      if buffer = ['0'] then scanNum (buffer ++ [c]) period 8 2 rest
      else .error .InvalidBase
    else if lc = 'x' then
      if buffer = ['0'] then scanNum (buffer ++ [c]) period 16 2 rest
      else .error .InvalidBase
    else .ok (buffer, period, radix, sliceStart, c :: rest)

/-- Mirror of the identifier scanning loop in `WgslExpression::from_chars`
(src/expression.rs lines 366-376). -/
def scanIdent (buffer : Str) (chars : Str) : Str × Str :=
  match chars with
  | [] => (buffer, [])
  | c :: rest =>
    if c.isAlphanum ∨ c = '_' then scanIdent (buffer ++ [c]) rest
    else (buffer, c :: rest)

/-- Helper shared by the binary-continuation arms of `fromChars`: the result
of parsing the right-hand side is fed to the node builder, with a missing
expression reported as `NoExpression`, mirroring
`from_chars(chars, false)?.ok_or(WgslError::NoExpression)?`. -/
def withRight (r : Except WgslError (Option WgslExpression × Str))
    (build : WgslExpression → WgslExpression) :
    Except WgslError (Option WgslExpression × Str) :=
  r.bind fun pr =>
    match pr.1 with
    | some right => .ok (some (build right), pr.2)
    | none => .error .NoExpression

/-- Mirror of `WgslExpression::from_chars` (src/expression.rs lines 256-578).
Returns the parsed expression (or `none` for "no expression here", with the
input unconsumed) together with the unconsumed remainder.  First an
atomic-or-unary term is scanned; then, unless `shallow` parsing was
requested, a binary-continuation token consumes the operator and recursively
parses the entire remainder as the right-hand side.  The fuel argument bounds
the recursion depth; `WgslExpression.new` supplies enough for any input it
passes. -/
def fromChars : Nat → Str → Bool → Except WgslError (Option WgslExpression × Str)
  | 0, _, _ => .error .RecursionLimit
  | fuel + 1, chars, shallow =>
    let atomRes : Except WgslError (Option (WgslExpression × Str)) :=
      match chars with
      | [] => .ok none
      | c :: rest =>
        if c = '!' then
          (fromChars fuel rest true).bind fun pr =>
            match pr.1 with
            | some e => .ok (some (.Unary .Not e, pr.2))
            | none => .error .NoExpression
        else if c = '~' then
          (fromChars fuel rest true).bind fun pr =>
            match pr.1 with
            | some e => .ok (some (.Unary .BitwiseNot e, pr.2))
            | none => .error .NoExpression
        else if c = '-' then
          (fromChars fuel rest true).bind fun pr =>
            match pr.1 with
            | some e => .ok (some (.Unary .Negate e, pr.2))
            | none => .error .NoExpression
        else if c = '(' then
          (fromChars fuel rest false).bind fun pr =>
            match pr.1 with
            | some e =>
              match pr.2 with
              | ')' :: rest2 => .ok (some (.Parenthesized e, rest2))
              | _ => .error .NoClosingParenthesis
            | none => .error .NoExpression
        else if c.isDigit then
          (scanNum [c] false 10 0 rest).bind fun scanned =>
            let (buffer, period, radix, sliceStart, rest2) := scanned
            if period then
              (parseFloat (buffer.drop sliceStart)).map fun q =>
                some (.Literal (.Float q), rest2)
            else
              (fromStrRadix (buffer.drop sliceStart) radix).map fun v =>
                some (.Literal (.Integer v), rest2)
        else if c.isAlpha ∨ c = '_' then
          let (buffer, rest2) := scanIdent [c] rest
          if buffer = str "true" then .ok (some (.Literal (.Bool true), rest2))
          else if buffer = str "false" then .ok (some (.Literal (.Bool false), rest2))
          else .ok (some (.Reference buffer, rest2))
        else .ok none
    atomRes.bind fun o =>
      match o with
      | none => .ok (none, chars)
      | some (single, after) =>
        if shallow then .ok (some single, after)
        else
          match after with
          | [] => .ok (some single, [])
          | c :: rest =>
            if c = '+' then
              withRight (fromChars fuel rest false) (.Operator single .Add ·)
            else if c = '-' then
              withRight (fromChars fuel rest false) (.Operator single .Subtract ·)
            else if c = '*' then
              withRight (fromChars fuel rest false) (.Operator single .Multiply ·)
            else if c = '/' then
              withRight (fromChars fuel rest false) (.Operator single .Divide ·)
            else if c = '&' then
              if rest.head? = some '&' then
                withRight (fromChars fuel rest.tail false) (.Comparison single .And ·)
              else
                withRight (fromChars fuel rest false) (.Operator single .BitwiseAnd ·)
            else if c = '|' then
              if rest.head? = some '|' then
                withRight (fromChars fuel rest.tail false) (.Comparison single .Or ·)
              else
                withRight (fromChars fuel rest false) (.Operator single .BitwiseOr ·)
            else if c = '>' then
              if rest.head? = some '=' then
                withRight (fromChars fuel rest.tail false)
                  (.Comparison single .GreaterThanOrEqual ·)
              else
                withRight (fromChars fuel rest false) (.Comparison single .GreaterThan ·)
            else if c = '<' then
              if rest.head? = some '=' then
                withRight (fromChars fuel rest.tail false)
                  (.Comparison single .LessThanOrEqual ·)
              else
                withRight (fromChars fuel rest false) (.Comparison single .LessThan ·)
            else if c = '!' then
              if rest.head? = some '=' then
                withRight (fromChars fuel rest.tail false) (.Comparison single .NotEqual ·)
              else .ok (some single, c :: rest)
            else if c = '=' then
              if rest.head? = some '=' then
                withRight (fromChars fuel rest.tail false) (.Comparison single .Equal ·)
              else .ok (some single, c :: rest)
            else .ok (some single, c :: rest)

/-- Mirror of `WgslExpression::reorder` (src/expression.rs lines 214-254): the
body is an immediate `return`, so the pass is the identity; the commented-out
precedence rebalancing is dead code. -/
def WgslExpression.reorder (e : WgslExpression) : WgslExpression := e

/-- Mirror of `WgslExpression::new` (src/expression.rs lines 74-86): trim,
strip all whitespace, parse one expression, run the (identity) reorder pass,
and reject leftover characters. -/
def WgslExpression.new (source : Str) : Except WgslError WgslExpression :=
  let chars := (trimChars source).filter (fun c => !rustIsWhitespace c)
  match fromChars (chars.length + 1) chars false with
  | .error e => .error e
  | .ok (none, _) => .error .NoExpression
  | .ok (some e, rest) =>
    let e := e.reorder
    if rest = [] then .ok e else .error (.LeftoverChars rest)

/-- Mirror of `enum WgslSegmentEndReason` (src/lib.rs).  The constructor
`NoneReason` mirrors the source's `None` variant, which no code path ever
produces. -/
inductive WgslSegmentEndReason : Type where
  | NoneReason | EndOfFile | ElseOp | EndOp
deriving DecidableEq, Repr

/-- Mirror of `enum WgslSegment` (src/lib.rs). -/
inductive WgslSegment : Type where
  | Include : Str → WgslSegment
  | Conditional : WgslExpression → WgslSegment → Option WgslSegment → WgslSegment
  | Sequence : List WgslSegment → WgslSegment
  | Constant : Str → WgslSegment
  | Text : Str → WgslSegment

/-- Discriminator for the `Sequence` variant. -/
def WgslSegment.isSeq : WgslSegment → Bool
  | .Sequence _ => true
  | _ => false

/-- Discriminator for the `Text` variant. -/
def WgslSegment.isText : WgslSegment → Bool
  | .Text _ => true
  | _ => false

/-- Mirror of `WgslSegment::can_concat_fast` (src/lib.rs lines 133-141). -/
def canConcatFast (a b : WgslSegment) : Bool :=
  b.isSeq || a.isSeq || (a.isText && b.isText)

mutual

/-- Mirror of `WgslSegment::concat` (src/lib.rs lines 143-198), written as a
pure function: the Rust mutates `self` in place, the model returns the new
value of `self`.  The match arms appear in the source's order. -/
def concat (a b : WgslSegment) : WgslSegment :=
  match a, b with
  | .Sequence left, .Sequence right => .Sequence (drainInto left right)
  | .Text left, .Text right => .Text (left ++ right)
  | left, .Sequence right => .Sequence (left :: right)
  | .Sequence left, right =>
    match h : left.getLast? with
    | some l =>
      if canConcatFast l right then .Sequence (left.dropLast ++ [concat l right])
      else .Sequence (left ++ [right])
    | none => .Sequence [right]
  | left, right => .Sequence [left, right]
termination_by (sizeOf b, sizeOf a)
decreasing_by
  · apply Prod.Lex.left
    simp
  · apply Prod.Lex.right
    have hlem : ∀ (l : List WgslSegment) (a : WgslSegment),
        l.getLast? = some a → sizeOf a < sizeOf l := by
      intro l
      induction l with
      | nil => intro a ha; simp [List.getLast?] at ha
      | cons x xs ih =>
        intro a ha
        cases xs with
        | nil =>
          simp [List.getLast?] at ha
          subst ha
          simp
          omega
        | cons y ys =>
          rw [List.getLast?_cons_cons] at ha
          have := ih a ha
          simp at this ⊢
          omega
    have h2 := hlem _ _ h
    simp only [WgslSegment.Sequence.sizeOf_spec]
    omega

/-- Mirror of the `right.drain(..)` loop inside the Sequence+Sequence arm of
`WgslSegment::concat`: append each incoming element to the accumulated list,
merging it into the last element when `can_concat_fast` allows. -/
def drainInto (left : List WgslSegment) (rs : List WgslSegment) : List WgslSegment :=
  match rs with
  | [] => left
  | s :: rest =>
    match left.getLast? with
    | some l =>
      if canConcatFast l s then drainInto (left.dropLast ++ [concat l s]) rest
      else drainInto (left ++ [s]) rest
    | none => drainInto [s] rest
termination_by (sizeOf rs, 0)
decreasing_by
  all_goals first
    | (apply Prod.Lex.left; simp; omega)
    | (apply Prod.Lex.left; simp)

end

/-- Mirror of `WgslSegment::from_lines` (src/lib.rs lines 79-131).  The Rust
`while let` loop over a mutable line iterator with a mutable `segment`
accumulator is modelled as recursion carrying the accumulator and returning
the unconsumed lines.  Fuel bounds the recursion; `WgslShader.new` supplies
enough for any input it passes. -/
def fromLinesAux : Nat → WgslSegment → List Str →
    Except WgslError (Option WgslSegment × WgslSegmentEndReason × List Str)
  | 0, _, _ => .error .RecursionLimit
  | _ + 1, segment, [] => .ok (some segment, .EndOfFile, [])
  | fuel + 1, segment, l :: rest =>
    let line := trimChars l
    if !startsWith (str "//:") line then
      fromLinesAux fuel (concat segment (.Text (line ++ ['\n']))) rest
    else
      let body := line.drop 3
      let (operation, param) := splitOnceSpace body
      if operation = str "include" then
        fromLinesAux fuel (concat segment (.Include param)) rest
      else if operation = str "const" then
        fromLinesAux fuel (concat segment (.Constant param)) rest
      else if operation = str "if" then
        match WgslExpression.new param with
        | .error e => .error e
        | .ok condition =>
          match fromLinesAux fuel (.Text []) rest with
          | .error e => .error e
          | .ok (some seg, .ElseOp, rest2) =>
            match fromLinesAux fuel (.Text []) rest2 with
            | .error e => .error e
            | .ok (some seg2, _, rest3) =>
              fromLinesAux fuel
                (concat segment (.Conditional condition seg (some seg2))) rest3
            | .ok (none, _, _) => .error .InvalidIfBlock
          | .ok (some seg, .EndOp, rest2) =>
            fromLinesAux fuel (concat segment (.Conditional condition seg none)) rest2
          | .ok (some seg, .EndOfFile, rest2) =>
            fromLinesAux fuel (concat segment (.Conditional condition seg none)) rest2
          | .ok _ => .error .InvalidIfBlock
      else if operation = str "else" then .ok (some segment, .ElseOp, rest)
      else if operation = str "end" then .ok (some segment, .EndOp, rest)
      else .error (.UnknownOperation operation)

/-- Entry point of the segment parser: the accumulator starts as the empty
text segment, as in the source. -/
def fromLines (fuel : Nat) (lines : List Str) :
    Except WgslError (Option WgslSegment × WgslSegmentEndReason × List Str) :=
  fromLinesAux fuel (.Text []) lines

/-- Mirror of `struct WgslShader`. -/
structure WgslShader : Type where
  segment : WgslSegment
  capacity : Nat

/-- Mirror of `WgslShader::new` (src/lib.rs lines 208-220): split into lines,
drop lines that are empty after trimming, parse the segment tree, and reject
leftover lines (their concatenation is the error payload, matching
`lines.collect::<String>()`). -/
def WgslShader.new (source : Str) : Except WgslError WgslShader :=
  let capacity := source.length
  let lines := (rustLines source).filter (fun l => !(trimChars l).isEmpty)
  match fromLines (lines.length + 1) lines with
  | .error e => .error e
  | .ok (segOpt, _, rest) =>
    let segment := segOpt.getD (.Text [])
    if rest.isEmpty then .ok ⟨segment, capacity⟩
    else .error (.LeftoverChars rest.flatten)

/-- Mirror of `struct WgslWorkspace`: the environment state, the workspace
root (unused by evaluation), and the parsed shader map. -/
structure WgslWorkspace : Type where
  state : WgslWorkspaceState
  root : Str
  shaders : List (Str × WgslShader)

/-- Shader-map lookup, modelling `HashMap::get` on path keys. -/
def lookupShader (m : List (Str × WgslShader)) (k : Str) : Option WgslShader :=
  (m.find? (fun p => p.1 == k)).map (·.2)

/-- Decimal rendering of an integer, modelling the `{i}` format of an `i64`. -/
def intStr (i : Int) : Str := (toString i).toList

/-- Rendering of a float literal, modelling the `{f}` format.  The exact
digits of Rust's `f64` Display are abstracted; no claim depends on them. -/
def ratStr (q : Rat) : Str := (toString q).toList

/-- Rendering of a boolean, modelling the `{b}` format. -/
def boolStr (b : Bool) : Str := if b then str "true" else str "false"

/-- Rendering of a literal in a `const` declaration line. -/
def litStr : WgslLiteral → Str
  | .Integer i => intStr i
  | .Float q => ratStr q
  | .Bool b => boolStr b

mutual

/-- Mirror of `WgslSegment::write` (src/lib.rs lines 33-77), returning the
appended text instead of mutating a buffer.  Fuel bounds include recursion,
which the source performs with no cycle detection. -/
def writeSeg (fuel : Nat) (s : WgslSegment) (ws : WgslWorkspace) : RunRes Str :=
  match s with
  | .Include p =>
    (getShader fuel ws p).bind fun text => .ok (text ++ ['\n'])
  | .Conditional condition ifTrue ifFalse =>
    (condition.evaluate ws.state).bind fun v =>
    let isTrue : Bool :=
      match v with
      | .Integer i => i != 0
      | .Float f => f != 0
      | .Bool b => b
    if isTrue then writeSeg fuel ifTrue ws
    else
      match ifFalse with
      | some fs => writeSeg fuel fs ws
      | none => .ok []
  | .Sequence children => writeList fuel children ws
  | .Constant name =>
    match ws.state.get name with
    | none => .err .UndefinedVariable
    | some v => .ok (str "const " ++ name ++ str " = " ++ litStr v ++ str ";" ++ ['\n'])
  | .Text t => .ok t
termination_by (fuel, sizeOf s)

/-- Sequential write of a sequence's children, mirroring the `for` loop in
the `Sequence` arm of `WgslSegment::write`. -/
def writeList (fuel : Nat) (children : List WgslSegment) (ws : WgslWorkspace) : RunRes Str :=
  match children with
  | [] => .ok []
  | c :: rest =>
    (writeSeg fuel c ws).bind fun a =>
    (writeList fuel rest ws).bind fun b =>
    .ok (a ++ b)
termination_by (fuel, sizeOf children)

/-- Mirror of `WgslWorkspace::get_shader` composed with `WgslShader::evaluate`
(src/lib.rs lines 222-228 and 320-326): look the shader up and render it. -/
def getShader (fuel : Nat) (ws : WgslWorkspace) (p : Str) : RunRes Str :=
  match lookupShader ws.shaders p with
  | none => .err .NotFound
  | some sh =>
    match fuel with
    | 0 => .err .RecursionLimit
    | f + 1 => writeSeg f sh.segment ws
termination_by (fuel, 0)

end

/-- Mirror of `WgslShader::evaluate`: render the root segment (the capacity
hint only pre-sizes the output buffer and has no observable effect). -/
def WgslShader.evalOut (fuel : Nat) (sh : WgslShader) (ws : WgslWorkspace) : RunRes Str :=
  writeSeg fuel sh.segment ws

mutual

/-- Flatness invariant on a segment tree, as the spec states it: inside every
`Sequence` node, no direct child is itself a `Sequence` and no two adjacent
direct children are both `Text`. -/
def flat : WgslSegment → Bool
  | .Sequence l => flatList l
  | .Conditional _ t f =>
    flat t &&
      (match f with
       | some s => flat s
       | none => true)
  | _ => true
termination_by s => sizeOf s

/-- Flatness of a `Sequence` node's child list: every child is a non-Sequence
flat segment, and no two adjacent children are both `Text`. -/
def flatList : List WgslSegment → Bool
  | [] => true
  | [s] => !s.isSeq && flat s
  | s :: t :: rest => !s.isSeq && flat s && !(s.isText && t.isText) && flatList (t :: rest)
termination_by l => sizeOf l

end

/-- Exceptional shape under which `concat` breaks the flatness invariant: a
`Text` left operand prepended to a `Sequence` whose first child is `Text`
(the source's non-Sequence + Sequence arm inserts at the front with no merge
check). -/
def textSeqClash : WgslSegment → WgslSegment → Bool
  | a, .Sequence (c :: _) => a.isText && c.isText
  | _, _ => false

/-- Sequential composition of two write outcomes: run both, concatenate the
outputs, propagating the first error or panic. -/
def runAppend (x y : RunRes Str) : RunRes Str :=
  x.bind fun a => y.bind fun b => .ok (a ++ b)

/-- Result classification for the segment parser: no `InvalidIfBlock` error,
and every success carries a segment and a reason other than the source's
never-constructed `None`. -/
def goodFL (r : Except WgslError (Option WgslSegment × WgslSegmentEndReason × List Str)) : Prop :=
  match r with
  | .error e => e ≠ .InvalidIfBlock
  | .ok (o, reason, _) => o.isSome = true ∧ reason ≠ .NoneReason

/-- Expected value of a digit string: the base conversion the spec describes
("the base-2/8/16/10 conversion of the literal's digits"). -/
def specBaseConversion (radix : Nat) (ds : Str) : Nat :=
  ds.foldl (fun a c => a * radix + (digitVal c).getD 0) 0

/-- Claim C2: parsing `a - b - c` produces the right-associative tree
`a - (b - c)` (the reorder pass being the identity), so with a=5, b=3, c=1 it
evaluates to `Integer 3`, not `Integer 1`. -/
theorem claim_C2 :
    WgslExpression.new (str "a - b - c") =
      .ok (.Operator (.Reference (str "a")) .Subtract
            (.Operator (.Reference (str "b")) .Subtract (.Reference (str "c")))) ∧
    (WgslExpression.Operator (.Reference (str "a")) .Subtract
        (.Operator (.Reference (str "b")) .Subtract (.Reference (str "c")))).evaluate
      ⟨[(str "a", .Integer 5), (str "b", .Integer 3), (str "c", .Integer 1)], []⟩ =
      .ok (.Integer 3) ∧
    (RunRes.ok (WgslLiteral.Integer 3) : RunRes WgslLiteral) ≠ .ok (.Integer 1) := by
  refine ⟨rfl, rfl, by decide⟩

/-- Counterexample to claim C5: an ordering comparison between an `Integer`
and a `Float` operand evaluates to `Ok(Bool(true))` via the derived
`PartialOrd`'s variant-order comparison, not to an `InvalidExpression`
error. -/
theorem claim_C5_cex :
    (WgslExpression.Comparison (.Literal (.Integer 5)) .LessThan
        (.Literal (.Float 0))).evaluate ⟨[], []⟩ = .ok (.Bool true) ∧
    (RunRes.ok (WgslLiteral.Bool true) : RunRes WgslLiteral) ≠ .err .InvalidExpression := by
  refine ⟨rfl, by decide⟩

/-- Claim C5 as amended: an ordering comparison whose operands evaluate to
literals of different variants is not an error; it returns the `Bool` given
by the derived `PartialOrd`'s variant-order comparison (Integer < Float <
Bool), the payloads being ignored. -/
theorem claim_C5 (a b : WgslLiteral) (st : WgslWorkspaceState) (h : a.idx ≠ b.idx) :
    (WgslExpression.Comparison (.Literal a) .LessThan (.Literal b)).evaluate st =
      .ok (.Bool (decide (a.idx < b.idx))) ∧
    (WgslExpression.Comparison (.Literal a) .LessThanOrEqual (.Literal b)).evaluate st =
      .ok (.Bool (decide (a.idx < b.idx))) ∧
    (WgslExpression.Comparison (.Literal a) .GreaterThan (.Literal b)).evaluate st =
      .ok (.Bool (decide (b.idx < a.idx))) ∧
    (WgslExpression.Comparison (.Literal a) .GreaterThanOrEqual (.Literal b)).evaluate st =
      .ok (.Bool (decide (b.idx < a.idx))) := by
  cases a <;> cases b <;>
    first
      | exact absurd rfl h
      | exact ⟨rfl, rfl, rfl, rfl⟩

/-- Witness for claim C5's amended theorem at `Integer 5` versus `Float 0`. -/
theorem claim_C5_witness :
    (WgslExpression.Comparison (.Literal (.Integer 5)) .GreaterThan
        (.Literal (.Float 0))).evaluate ⟨[], []⟩ = .ok (.Bool false) := by
  simpa using (claim_C5 (.Integer 5) (.Float 0) ⟨[], []⟩ (by decide)).2.2.1

/-- Claim C8: `Divide` on two `Integer` operands is truncating division with
no divisor guard — a zero divisor is the fatal runtime fault, not a returned
error (as is the one overflowing quotient, `i64::MIN / -1`, whose panic Rust
keeps in every build profile) — and on two `Float` operands it is ordinary
division. -/
theorem claim_C8 (l r : WgslExpression) (st : WgslWorkspaceState) :
    (∀ a b : Int, l.evaluate st = .ok (.Integer a) → r.evaluate st = .ok (.Integer b) →
      (WgslExpression.Operator l .Divide r).evaluate st =
        if b = 0 then .fatal
        else if a = -(2 ^ 63) ∧ b = -1 then .fatal
        else .ok (.Integer (Int.tdiv a b))) ∧
    (∀ x y : Rat, l.evaluate st = .ok (.Float x) → r.evaluate st = .ok (.Float y) →
      (WgslExpression.Operator l .Divide r).evaluate st = .ok (.Float (x / y))) := by
  constructor
  · intro a b ha hb
    have hstep : (WgslExpression.Operator l .Divide r).evaluate st =
        (l.evaluate st).bind fun left =>
        (r.evaluate st).bind fun right =>
        match left, right with
        | .Integer a, .Integer b =>
          if b = 0 then .fatal
          else if a = -(2 ^ 63) ∧ b = -1 then .fatal
          else .ok (.Integer (Int.tdiv a b))
        | .Float a, .Float b => .ok (.Float (a / b))
        | _, _ => .err .InvalidExpression := rfl
    rw [hstep, ha, hb]
    rfl
  · intro x y hx hy
    have hstep : (WgslExpression.Operator l .Divide r).evaluate st =
        (l.evaluate st).bind fun left =>
        (r.evaluate st).bind fun right =>
        match left, right with
        | .Integer a, .Integer b =>
          if b = 0 then .fatal
          else if a = -(2 ^ 63) ∧ b = -1 then .fatal
          else .ok (.Integer (Int.tdiv a b))
        | .Float a, .Float b => .ok (.Float (a / b))
        | _, _ => .err .InvalidExpression := rfl
    rw [hstep, hx, hy]
    rfl

/-- Witness for claim C8: `7 / 0` dies with the fatal outcome, `-7 / 2`
truncates toward zero, and `i64::MIN / -1` dies with the fatal outcome. -/
theorem claim_C8_witness :
    (WgslExpression.Operator (.Literal (.Integer 7)) .Divide
        (.Literal (.Integer 0))).evaluate ⟨[], []⟩ = .fatal ∧
    (WgslExpression.Operator (.Literal (.Integer (-7))) .Divide
        (.Literal (.Integer 2))).evaluate ⟨[], []⟩ = .ok (.Integer (-3)) ∧
    (WgslExpression.Operator (.Literal (.Integer (-(2 ^ 63)))) .Divide
        (.Literal (.Integer (-1)))).evaluate ⟨[], []⟩ = .fatal := by
  refine ⟨?_, ?_, ?_⟩
  · have h := (claim_C8 (.Literal (.Integer 7)) (.Literal (.Integer 0)) ⟨[], []⟩).1 7 0 rfl rfl
    simpa using h
  · have h := (claim_C8 (.Literal (.Integer (-7))) (.Literal (.Integer 2)) ⟨[], []⟩).1 (-7) 2 rfl rfl
    simpa using h
  · have h := (claim_C8 (.Literal (.Integer (-(2 ^ 63)))) (.Literal (.Integer (-1)))
      ⟨[], []⟩).1 (-(2 ^ 63)) (-1) rfl rfl
    simpa using h

/-- Claim C9: `&&` with a `Bool(true)` left operand and `||` with a
`Bool(false)` left operand return the right operand's evaluated value with no
type check on it, while a non-Bool left operand is rejected. -/
theorem claim_C9 (l r : WgslExpression) (st : WgslWorkspaceState) :
    (l.evaluate st = .ok (.Bool true) →
      (WgslExpression.Comparison l .And r).evaluate st = r.evaluate st) ∧
    (l.evaluate st = .ok (.Bool false) →
      (WgslExpression.Comparison l .Or r).evaluate st = r.evaluate st) ∧
    (∀ n : Int, l.evaluate st = .ok (.Integer n) →
      (WgslExpression.Comparison l .And r).evaluate st = .err .InvalidExpression ∧
      (WgslExpression.Comparison l .Or r).evaluate st = .err .InvalidExpression) := by
  refine ⟨?_, ?_, ?_⟩
  · intro h
    have hstep : (WgslExpression.Comparison l .And r).evaluate st =
        (l.evaluate st).bind fun left =>
        match left with
        | .Bool true => r.evaluate st
        | .Bool false => .ok (.Bool false)
        | _ => .err .InvalidExpression := rfl
    rw [hstep, h]
    rfl
  · intro h
    have hstep : (WgslExpression.Comparison l .Or r).evaluate st =
        (l.evaluate st).bind fun left =>
        match left with
        | .Bool false => r.evaluate st
        | .Bool true => .ok (.Bool true)
        | _ => .err .InvalidExpression := rfl
    rw [hstep, h]
    rfl
  · intro n h
    constructor
    · have hstep : (WgslExpression.Comparison l .And r).evaluate st =
          (l.evaluate st).bind fun left =>
          match left with
          | .Bool true => r.evaluate st
          | .Bool false => .ok (.Bool false)
          | _ => .err .InvalidExpression := rfl
      rw [hstep, h]
      rfl
    · have hstep : (WgslExpression.Comparison l .Or r).evaluate st =
          (l.evaluate st).bind fun left =>
          match left with
          | .Bool false => r.evaluate st
          | .Bool true => .ok (.Bool true)
          | _ => .err .InvalidExpression := rfl
      rw [hstep, h]
      rfl

/-- Witness for claim C9: `true && 5` evaluates to `Integer 5`, and an
`Integer` left operand of `&&` is rejected. -/
theorem claim_C9_witness :
    (WgslExpression.Comparison (.Literal (.Bool true)) .And
        (.Literal (.Integer 5))).evaluate ⟨[], []⟩ = .ok (.Integer 5) ∧
    (WgslExpression.Comparison (.Literal (.Integer 1)) .And
        (.Literal (.Integer 5))).evaluate ⟨[], []⟩ = .err .InvalidExpression := by
  constructor
  · exact (claim_C9 (.Literal (.Bool true)) (.Literal (.Integer 5)) ⟨[], []⟩).1 rfl
  · exact ((claim_C9 (.Literal (.Integer 1)) (.Literal (.Integer 5)) ⟨[], []⟩).2.2 1 rfl).1

/-- Claim C10: the default workspace state has empty local overrides and
exactly the 64 globals `BIT_0 … BIT_63`, with `BIT_i` bound to the 64-bit
two's-complement value of `1 << i`, so `BIT_i = 2^i` for `i ≤ 62` while
`BIT_63 = -2^63`; every one of these names resolves before any user value is
injected. -/
theorem claim_C10 :
    WgslWorkspaceState.default.local_overrides = [] ∧
    WgslWorkspaceState.default.global_variables.length = 64 ∧
    WgslWorkspaceState.default.global_variables.map Prod.fst =
      (List.range 64).map bitName ∧
    (∀ i, i < 64 →
      WgslWorkspaceState.default.get (bitName i) = some (.Integer (i64shl 1 i))) ∧
    (∀ i, i < 63 →
      WgslWorkspaceState.default.get (bitName i) = some (.Integer (2 ^ i))) ∧
    WgslWorkspaceState.default.get (bitName 63) = some (.Integer (-(2 ^ 63))) := by
  refine ⟨rfl, rfl, rfl, by decide, by decide, rfl⟩

/-- Witness for claim C10 at `BIT_5` and `BIT_63`. -/
theorem claim_C10_witness :
    WgslWorkspaceState.default.get (bitName 5) = some (.Integer (2 ^ 5)) ∧
    WgslWorkspaceState.default.get (bitName 63) = some (.Integer (i64shl 1 63)) := by
  exact ⟨claim_C10.2.2.2.2.1 5 (by decide), claim_C10.2.2.2.1 63 (by decide)⟩

/-- Counterexample to claim C3: the hexadecimal literal `0xff` does not parse
to `Integer 255`; the letter digits break the scanning loop, the digit slice
after the `0x` prefix is empty, and parsing fails with the wrapped empty-digit
integer-conversion error. -/
theorem claim_C3_cex :
    WgslExpression.new (str "0xff") = .error (.ParseIntError .empty) ∧
    (Except.error (WgslError.ParseIntError .empty) :
        Except WgslError WgslExpression) ≠ .ok (.Literal (.Integer 255)) := by
  exact ⟨rfl, by nofun⟩

/-- Counterexample to claim C4: an `if` directive immediately followed by end
of input — the claim's own example of malformed nesting — is not rejected
with `InvalidIfBlock`; it parses successfully into a conditional with an
empty true branch and no false branch. -/
theorem claim_C4_cex :
    WgslShader.new (str "//:if true") =
      .ok ⟨.Sequence [.Text [], .Conditional (.Literal (.Bool true)) (.Text []) none],
        10⟩ := by
  simp only [WgslShader.new, fromLines, fromLinesAux, concat, drainInto]
  rfl

/-- Counterexample to claim C1: the directive-free source `" a\n\nb"` does
not round-trip: the blank line is dropped, the leading space is trimmed, and
a final newline is appended, rendering `"a\nb\n"`. -/
theorem claim_C1_cex :
    ((WgslShader.new (str " a\n\nb")).map
        (fun sh => sh.evalOut 1 ⟨⟨[], []⟩, [], []⟩)) =
      .ok (.ok (str "a\nb\n")) ∧
    str "a\nb\n" ≠ str " a\n\nb" := by
  constructor
  · have h1 : WgslShader.new (str " a\n\nb") = .ok ⟨.Text (str "a\nb\n"), 5⟩ := by
      simp only [WgslShader.new, fromLines, fromLinesAux, concat, drainInto]
      rfl
    rw [h1]
    simp [Except.map, WgslShader.evalOut, writeSeg]
  · decide

/-- Counterexample to claim C6: `Text "a"` and `Sequence [Text "b"]` each
satisfy the flatness invariant, but their concatenation prepends the text to
the sequence with no merge check and produces two adjacent `Text` children. -/
theorem claim_C6_cex :
    flat (.Text (str "a")) = true ∧
    flat (.Sequence [.Text (str "b")]) = true ∧
    concat (.Text (str "a")) (.Sequence [.Text (str "b")]) =
      .Sequence [.Text (str "a"), .Text (str "b")] ∧
    flat (.Sequence [.Text (str "a"), .Text (str "b")]) = false := by
  refine ⟨by simp [flat], ?_, by simp [concat], ?_⟩
  · simp [flat, flatList, WgslSegment.isSeq, WgslSegment.isText]
  · simp [flat, flatList, WgslSegment.isSeq, WgslSegment.isText]

theorem runAppend_assoc (x y z : RunRes Str) :
    runAppend (runAppend x y) z = runAppend x (runAppend y z) := by
  cases x <;> cases y <;> cases z <;> simp [runAppend, RunRes.bind]

theorem runAppend_nil_right (x : RunRes Str) : runAppend x (.ok []) = x := by
  cases x <;> simp [runAppend, RunRes.bind]

theorem runAppend_nil_left (x : RunRes Str) : runAppend (.ok []) x = x := by
  cases x <;> simp [runAppend, RunRes.bind]

theorem writeList_nil (fuel : Nat) (ws : WgslWorkspace) : writeList fuel [] ws = .ok [] := by
  simp [writeList]

theorem writeList_cons (fuel : Nat) (ws : WgslWorkspace) (x : WgslSegment)
    (xs : List WgslSegment) :
    writeList fuel (x :: xs) ws = runAppend (writeSeg fuel x ws) (writeList fuel xs ws) := by
  simp [writeList, runAppend]

theorem writeList_single (fuel : Nat) (ws : WgslWorkspace) (x : WgslSegment) :
    writeList fuel [x] ws = writeSeg fuel x ws := by
  rw [writeList_cons, writeList_nil, runAppend_nil_right]

theorem writeList_append (fuel : Nat) (ws : WgslWorkspace) (xs ys : List WgslSegment) :
    writeList fuel (xs ++ ys) ws =
      runAppend (writeList fuel xs ws) (writeList fuel ys ws) := by
  induction xs with
  | nil => rw [List.nil_append, writeList_nil, runAppend_nil_left]
  | cons x xs ih =>
    rw [List.cons_append, writeList_cons, writeList_cons, ih, runAppend_assoc]

theorem writeSeg_seq (fuel : Nat) (ws : WgslWorkspace) (l : List WgslSegment) :
    writeSeg fuel (.Sequence l) ws = writeList fuel l ws := by
  simp [writeSeg]

/-- Rendering commutes with concatenation: writing `concat a b` produces the
write of `a` followed by the write of `b`, for every fuel and workspace. -/
theorem writeSeg_concat (fuel : Nat) (ws : WgslWorkspace) :
    ∀ a b : WgslSegment,
      writeSeg fuel (concat a b) ws =
        runAppend (writeSeg fuel a ws) (writeSeg fuel b ws) := by
  apply concat.induct
    (fun a b =>
      writeSeg fuel (concat a b) ws = runAppend (writeSeg fuel a ws) (writeSeg fuel b ws))
    (fun left rs =>
      writeList fuel (drainInto left rs) ws =
        runAppend (writeList fuel left ws) (writeList fuel rs ws))
  · intro left right ih
    rw [concat.eq_1, writeSeg_seq, writeSeg_seq, writeSeg_seq, ih]
  · intro left right
    simp [concat.eq_2, writeSeg, runAppend, RunRes.bind]
  · intro left right hns
    rw [concat.eq_3 left right hns, writeSeg_seq, writeList_cons, writeSeg_seq]
  · intro left right hns _ l hlast hfast ih
    rw [concat.eq_4 right left hns, hlast]
    dsimp only
    rw [if_pos hfast, writeSeg_seq,
      writeList_append, writeList_single, ih, ← runAppend_assoc,
      ← writeList_single fuel ws l, ← writeList_append,
      List.dropLast_append_getLast? l hlast, writeSeg_seq]
  · intro left right hns _ l hlast hfast
    rw [concat.eq_4 right left hns, hlast]
    dsimp only
    rw [if_neg hfast, writeSeg_seq,
      writeList_append, writeList_single, writeSeg_seq]
  · intro left right hns _ hlast
    rw [concat.eq_4 right left hns, hlast, List.getLast?_eq_none_iff.mp hlast]
    dsimp only
    rw [writeSeg_seq, writeList_single, writeSeg_seq, writeList_nil, runAppend_nil_left]
  · intro left right h1 h2 h3 h4
    rw [concat.eq_5 left right h4 h3 (fun a b ha hb => h1 a b ha hb) (fun a b ha hb => h2 a b ha hb),
      writeSeg_seq, writeList_cons, writeList_single]
  · intro left
    rw [drainInto.eq_1, writeList_nil, runAppend_nil_right]
  · intro left s rest l hlast hfast ih1 ih2
    rw [drainInto.eq_2, hlast]
    dsimp only
    rw [if_pos hfast, ih2, writeList_append, writeList_single, ih1, ← runAppend_assoc,
      ← writeList_single fuel ws l, ← writeList_append,
      List.dropLast_append_getLast? l hlast, writeList_cons, runAppend_assoc]
  · intro left s rest l hlast hfast ih
    rw [drainInto.eq_2, hlast]
    dsimp only
    rw [if_neg hfast, ih, writeList_append, writeList_single,
      writeList_cons, runAppend_assoc]
  · intro left s rest hlast ih
    rw [drainInto.eq_2, hlast, List.getLast?_eq_none_iff.mp hlast]
    dsimp only
    rw [ih, writeList_nil, runAppend_nil_left, writeList_cons, writeList_nil,
      runAppend_nil_right, ← writeList_cons]

/-- Claim C7: `concat` is associative with respect to rendered output — for
any segments, grouping a left-to-right combination as `(a ++ b) ++ c` or as
`a ++ (b ++ c)` yields trees that render to the same text (for every fuel and
workspace, errors and panics included). -/
theorem claim_C7 (a b c : WgslSegment) (fuel : Nat) (ws : WgslWorkspace) :
    writeSeg fuel (concat (concat a b) c) ws =
      writeSeg fuel (concat a (concat b c)) ws := by
  rw [writeSeg_concat, writeSeg_concat, writeSeg_concat, writeSeg_concat, runAppend_assoc]

theorem isSeq_false_of_not_seq {a : WgslSegment}
    (hns : ∀ l1, a = WgslSegment.Sequence l1 → False) : a.isSeq = false := by
  cases a <;> simp [WgslSegment.isSeq]
  exact hns _ rfl

theorem isText_exists {a : WgslSegment} (h : a.isText = true) : ∃ t, a = .Text t := by
  cases a <;> simp [WgslSegment.isText] at h ⊢

theorem canConcatFast_of_nonSeq {a b : WgslSegment} (ha : a.isSeq = false)
    (hb : b.isSeq = false) :
    canConcatFast a b = (a.isText && b.isText) := by
  simp [canConcatFast, ha, hb]

theorem flat_text (t : Str) : flat (.Text t) = true := by simp [flat]

theorem flatList_mem :
    ∀ l : List WgslSegment, flatList l = true →
      ∀ s ∈ l, s.isSeq = false ∧ flat s = true := by
  intro l
  induction l with
  | nil => intro _ s hs; cases hs
  | cons x xs ih =>
    intro hfl s hs
    rw [List.mem_cons] at hs
    cases xs with
    | nil =>
      simp [flatList] at hfl
      rcases hs with h | h
      · subst h; exact ⟨hfl.1, hfl.2⟩
      · cases h
    | cons y ys =>
      rw [flatList.eq_3] at hfl
      simp only [Bool.and_eq_true] at hfl
      rcases hs with h | h
      · subst h; exact ⟨by simpa using hfl.1.1.1, hfl.1.1.2⟩
      · exact ih hfl.2 s h

theorem flatList_cons (s : WgslSegment) (r : List WgslSegment)
    (hs1 : s.isSeq = false) (hs2 : flat s = true) (hr : flatList r = true)
    (hadj : ∀ c cs, r = c :: cs → (s.isText && c.isText) = false) :
    flatList (s :: r) = true := by
  cases r with
  | nil => simp [flatList, hs1, hs2]
  | cons c cs =>
    rw [flatList.eq_3]
    simp only [Bool.and_eq_true]
    refine ⟨⟨⟨by simp [hs1], hs2⟩, ?_⟩, hr⟩
    rw [hadj c cs rfl]
    rfl

theorem flatList_cons_elim (c d : WgslSegment) (ds : List WgslSegment)
    (h : flatList (c :: d :: ds) = true) :
    c.isSeq = false ∧ flat c = true ∧ (c.isText && d.isText) = false ∧
      flatList (d :: ds) = true := by
  rw [flatList.eq_3] at h
  simp only [Bool.and_eq_true] at h
  have h3 : (c.isText && d.isText) = false := by
    have h2 := h.1.2
    cases hb : c.isText && d.isText
    · rfl
    · rw [hb] at h2; cases h2
  exact ⟨by simpa using h.1.1.1, h.1.1.2, h3, h.2⟩

theorem flatList_push :
    ∀ (l : List WgslSegment) (s : WgslSegment), flatList l = true →
      s.isSeq = false → flat s = true →
      (∀ lst, l.getLast? = some lst → (lst.isText && s.isText) = false) →
      flatList (l ++ [s]) = true := by
  intro l
  induction l with
  | nil =>
    intro s _ hs1 hs2 _
    simpa using flatList_cons s [] hs1 hs2 (by simp [flatList]) (by intro c cs h; cases h)
  | cons x xs ih =>
    intro s hfl hs1 hs2 hadj
    cases xs with
    | nil =>
      simp only [flatList] at hfl
      simp only [Bool.and_eq_true] at hfl
      rw [List.cons_append, List.nil_append]
      refine flatList_cons x [s] (by simpa using hfl.1) hfl.2 ?_ ?_
      · exact flatList_cons s [] hs1 hs2 (by simp [flatList]) (by intro c cs h; cases h)
      · intro c cs h
        cases h
        exact hadj x rfl
    | cons y ys =>
      have hparts := flatList_cons_elim x y ys hfl
      rw [List.cons_append]
      refine flatList_cons x ((y :: ys) ++ [s]) hparts.1 hparts.2.1 ?_ ?_
      · refine ih s hparts.2.2.2 hs1 hs2 ?_
        intro lst hlst
        refine hadj lst ?_
        rw [List.getLast?_cons_cons, hlst]
      · intro c cs h
        rw [List.cons_append] at h
        cases h
        exact hparts.2.2.1

theorem flatList_merge_last :
    ∀ (l : List WgslSegment) (a x : Str), flatList l = true →
      l.getLast? = some (.Text a) →
      flatList (l.dropLast ++ [.Text x]) = true := by
  intro l
  induction l with
  | nil => intro a x _ h; cases h
  | cons c cs ih =>
    intro a x hfl hlast
    cases cs with
    | nil =>
      simp only [List.dropLast_single, List.nil_append]
      exact flatList_cons (.Text x) [] (by simp [WgslSegment.isSeq])
        (by simp [flat]) (by simp [flatList]) (by intro c2 cs2 h; cases h)
    | cons d ds =>
      have hparts := flatList_cons_elim c d ds hfl
      have hlast2 : (d :: ds).getLast? = some (.Text a) := by
        rw [← List.getLast?_cons_cons (a := c)]
        exact hlast
      rw [List.dropLast_cons₂, List.cons_append]
      refine flatList_cons c ((d :: ds).dropLast ++ [.Text x]) hparts.1 hparts.2.1
        (ih a x hparts.2.2.2 hlast2) ?_
      intro c2 cs2 h
      cases ds with
      | nil =>
        simp only [List.dropLast_single, List.nil_append] at h
        cases h
        have hd : d = WgslSegment.Text a := by
          simpa [List.getLast?] using hlast2
        have : (c.isText && d.isText) = false := hparts.2.2.1
        rw [hd] at this
        simp only [WgslSegment.isText] at this ⊢
        simpa using this
      | cons e es =>
        rw [List.dropLast_cons₂, List.cons_append] at h
        cases h
        exact hparts.2.2.1

theorem mem_of_getLast?_seg {l : List WgslSegment} {a : WgslSegment}
    (h : l.getLast? = some a) : a ∈ l := by
  have hd := List.dropLast_append_getLast? a h
  rw [← hd]
  simp

theorem flat_concat :
    ∀ a b : WgslSegment, flat a = true → flat b = true →
      textSeqClash a b = false → flat (concat a b) = true := by
  apply concat.induct
    (fun a b => flat a = true → flat b = true →
      textSeqClash a b = false → flat (concat a b) = true)
    (fun left rs => flatList left = true →
      (∀ s ∈ rs, s.isSeq = false ∧ flat s = true) →
      flatList (drainInto left rs) = true)
  · intro left right ih ha hb _
    rw [concat.eq_1]
    simp only [flat] at ha hb ⊢
    exact ih ha (flatList_mem right hb)
  · intro left right _ _ _
    rw [concat.eq_2]
    simp [flat]
  · intro left right hns ha hb hc
    rw [concat.eq_3 left right hns]
    simp only [flat] at hb ⊢
    refine flatList_cons left right (isSeq_false_of_not_seq hns) ha hb ?_
    intro c cs hr
    subst hr
    simpa [textSeqClash] using hc
  · intro left right hns _ l hlast hfast ih ha hb _
    rw [concat.eq_4 right left hns, hlast]
    dsimp only
    rw [if_pos hfast]
    simp only [flat] at ha ⊢
    have hmem := mem_of_getLast?_seg hlast
    obtain ⟨hlseq, hlflat⟩ := flatList_mem left ha l hmem
    have hrseq : right.isSeq = false := isSeq_false_of_not_seq hns
    have hboth : (l.isText && right.isText) = true := by
      rw [← canConcatFast_of_nonSeq hlseq hrseq]
      exact hfast
    simp only [Bool.and_eq_true] at hboth
    obtain ⟨la, hla⟩ := isText_exists hboth.1
    obtain ⟨rb, hrb⟩ := isText_exists hboth.2
    subst hla hrb
    rw [concat.eq_2]
    exact flatList_merge_last left la (la ++ rb) ha hlast
  · intro left right hns _ l hlast hfast ha hb _
    rw [concat.eq_4 right left hns, hlast]
    dsimp only
    rw [if_neg hfast]
    simp only [flat] at ha ⊢
    have hmem := mem_of_getLast?_seg hlast
    obtain ⟨hlseq, _⟩ := flatList_mem left ha l hmem
    have hrseq : right.isSeq = false := isSeq_false_of_not_seq hns
    refine flatList_push left right ha hrseq hb ?_
    intro lst hlst
    have hle : lst = l := by
      rw [hlst] at hlast
      exact Option.some.inj hlast
    subst hle
    rw [← canConcatFast_of_nonSeq hlseq hrseq]
    exact Bool.eq_false_iff.mpr hfast
  · intro left right hns _ hlast _ hb _
    rw [concat.eq_4 right left hns, hlast]
    dsimp only
    simp only [flat]
    exact flatList_cons right [] (isSeq_false_of_not_seq hns) hb
      (by simp [flatList]) (by intro c cs h; cases h)
  · intro left right h1 h2 h3 h4 ha hb _
    rw [concat.eq_5 left right h4 h3 h1 h2]
    simp only [flat]
    have hlseq : left.isSeq = false := isSeq_false_of_not_seq h4
    have hrseq : right.isSeq = false := isSeq_false_of_not_seq h3
    refine flatList_cons left [right] hlseq ha ?_ ?_
    · exact flatList_cons right [] hrseq hb (by simp [flatList]) (by intro c cs h; cases h)
    · intro c cs h
      cases h
      cases hli : left.isText
      · rfl
      · cases hri : right.isText
        · simp
        · obtain ⟨la, hla⟩ := isText_exists hli
          obtain ⟨rb, hrb⟩ := isText_exists hri
          exact (h2 la rb hla hrb).elim
  · intro left hl _
    rw [drainInto.eq_1]
    exact hl
  · intro left s rest l hlast hfast ih1 ih2 hl hall
    rw [drainInto.eq_2, hlast]
    dsimp only
    rw [if_pos hfast]
    have hmem := mem_of_getLast?_seg hlast
    obtain ⟨hlseq, hlflat⟩ := flatList_mem left hl l hmem
    obtain ⟨hsseq, hsflat⟩ := hall s (by simp)
    have hboth : (l.isText && s.isText) = true := by
      rw [← canConcatFast_of_nonSeq hlseq hsseq]
      exact hfast
    simp only [Bool.and_eq_true] at hboth
    obtain ⟨la, hla⟩ := isText_exists hboth.1
    obtain ⟨rb, hrb⟩ := isText_exists hboth.2
    refine ih2 ?_ ?_
    · rw [hla] at hlast
      rw [hla, hrb, concat.eq_2]
      exact flatList_merge_last left la (la ++ rb) hl hlast
    · intro s2 hs2
      exact hall s2 (by simp [hs2])
  · intro left s rest l hlast hfast ih hl hall
    rw [drainInto.eq_2, hlast]
    dsimp only
    rw [if_neg hfast]
    obtain ⟨hsseq, hsflat⟩ := hall s (by simp)
    have hmem := mem_of_getLast?_seg hlast
    obtain ⟨hlseq, _⟩ := flatList_mem left hl l hmem
    refine ih ?_ ?_
    · refine flatList_push left s hl hsseq hsflat ?_
      intro lst hlst
      have hle : lst = l := by
        rw [hlst] at hlast
        exact Option.some.inj hlast
      subst hle
      rw [← canConcatFast_of_nonSeq hlseq hsseq]
      exact Bool.eq_false_iff.mpr hfast
    · intro s2 hs2
      exact hall s2 (by simp [hs2])
  · intro left s rest hlast ih hl hall
    rw [drainInto.eq_2, hlast]
    dsimp only
    obtain ⟨hsseq, hsflat⟩ := hall s (by simp)
    refine ih ?_ ?_
    · exact flatList_cons s [] hsseq hsflat (by simp [flatList]) (by intro c cs h; cases h)
    · intro s2 hs2
      exact hall s2 (by simp [hs2])

/-- Claim C6 as amended: `concat` preserves the flatness invariant for every
pair of flat inputs except the Text + Sequence-starting-with-Text shape
(`textSeqClash`), where the source inserts the left operand at the front of
the sequence with no merge check. -/
theorem claim_C6 (a b : WgslSegment) (ha : flat a = true) (hb : flat b = true)
    (hc : textSeqClash a b = false) : flat (concat a b) = true :=
  flat_concat a b ha hb hc

/-- Witness for claim C6 at two `Text` fragments. -/
theorem claim_C6_witness :
    flat (concat (.Text (str "a")) (.Text (str "b"))) = true :=
  claim_C6 (.Text (str "a")) (.Text (str "b")) (by simp [flat]) (by simp [flat]) rfl

theorem bind_no_iib {α β : Type} (r : Except WgslError α) (f : α → Except WgslError β)
    (hr : r ≠ .error .InvalidIfBlock) (hf : ∀ a, f a ≠ .error .InvalidIfBlock) :
    r.bind f ≠ .error .InvalidIfBlock := by
  cases r with
  | error e => simpa [Except.bind] using hr
  | ok a => simpa [Except.bind] using hf a

theorem map_no_iib {α β : Type} (r : Except WgslError α) (f : α → β)
    (hr : r ≠ .error .InvalidIfBlock) :
    r.map f ≠ .error .InvalidIfBlock := by
  cases r with
  | error e => simpa [Except.map] using hr
  | ok a => simp [Except.map]

theorem scanNum_no_iib :
    ∀ (chars buffer : Str) (period : Bool) (radix sliceStart : Nat),
      scanNum buffer period radix sliceStart chars ≠ .error .InvalidIfBlock := by
  intro chars
  induction chars with
  | nil => intro buffer period radix sliceStart; simp [scanNum]
  | cons c rest ih =>
    intro buffer period radix sliceStart
    rw [scanNum]
    split_ifs <;> first | apply ih | simp

theorem fromStrRadix_no_iib (s : Str) (radix : Nat) :
    fromStrRadix s radix ≠ .error .InvalidIfBlock := by
  unfold fromStrRadix
  split_ifs with h
  · simp
  · split
    · simp
    · split_ifs <;> simp

theorem parseFloat_no_iib (s : Str) : parseFloat s ≠ .error .InvalidIfBlock := by
  unfold parseFloat
  dsimp only
  split_ifs <;> first | (split <;> simp) | simp

theorem withRight_no_iib (r : Except WgslError (Option WgslExpression × Str))
    (g : WgslExpression → WgslExpression)
    (hr : r ≠ .error .InvalidIfBlock) :
    withRight r g ≠ .error .InvalidIfBlock := by
  unfold withRight
  apply bind_no_iib _ _ hr
  intro pr
  cases pr.1 <;> simp

set_option maxHeartbeats 1000000 in
theorem fromChars_no_iib :
    ∀ (fuel : Nat) (cs : Str) (sh : Bool),
      fromChars fuel cs sh ≠ .error .InvalidIfBlock := by
  intro fuel
  induction fuel with
  | zero => intro cs sh; simp [fromChars]
  | succ n ih =>
    intro cs sh
    rw [fromChars.eq_def]
    dsimp only
    apply bind_no_iib
    · cases cs with
      | nil => intro hh; cases hh
      | cons c rest =>
        dsimp only
        split_ifs <;>
          first
            | (apply bind_no_iib _ _ (ih _ _);
               intro pr;
               obtain ⟨o, rest2⟩ := pr;
               cases o <;>
                 first
                   | (dsimp only; split <;> (intro hh; cases hh))
                   | (intro hh; cases hh))
            | (apply bind_no_iib _ _ (scanNum_no_iib _ _ _ _ _);
               intro scanned;
               dsimp only;
               split_ifs <;>
                 first
                   | exact map_no_iib _ _ (parseFloat_no_iib _)
                   | exact map_no_iib _ _ (fromStrRadix_no_iib _ _))
            | (intro hh; cases hh)
    · intro o
      cases o with
      | none => intro hh; cases hh
      | some pr =>
        obtain ⟨single, after⟩ := pr
        dsimp only
        by_cases hsh : sh = true
        · rw [if_pos hsh]
          intro hh
          cases hh
        · rw [if_neg hsh]
          cases after with
          | nil => intro hh; cases hh
          | cons c rest =>
            dsimp only
            by_cases h1 : c = '+'
            · rw [if_pos h1]; exact withRight_no_iib _ _ (ih _ false)
            rw [if_neg h1]
            by_cases h2 : c = '-'
            · rw [if_pos h2]; exact withRight_no_iib _ _ (ih _ false)
            rw [if_neg h2]
            by_cases h3 : c = '*'
            · rw [if_pos h3]; exact withRight_no_iib _ _ (ih _ false)
            rw [if_neg h3]
            by_cases h4 : c = '/'
            · rw [if_pos h4]; exact withRight_no_iib _ _ (ih _ false)
            rw [if_neg h4]
            by_cases h5 : c = '&'
            · rw [if_pos h5]
              by_cases h5b : rest.head? = some '&'
              · rw [if_pos h5b]; exact withRight_no_iib _ _ (ih _ false)
              · rw [if_neg h5b]; exact withRight_no_iib _ _ (ih _ false)
            rw [if_neg h5]
            by_cases h6 : c = '|'
            · rw [if_pos h6]
              by_cases h6b : rest.head? = some '|'
              · rw [if_pos h6b]; exact withRight_no_iib _ _ (ih _ false)
              · rw [if_neg h6b]; exact withRight_no_iib _ _ (ih _ false)
            rw [if_neg h6]
            by_cases h7 : c = '>'
            · rw [if_pos h7]
              by_cases h7b : rest.head? = some '='
              · rw [if_pos h7b]; exact withRight_no_iib _ _ (ih _ false)
              · rw [if_neg h7b]; exact withRight_no_iib _ _ (ih _ false)
            rw [if_neg h7]
            by_cases h8 : c = '<'
            · rw [if_pos h8]
              by_cases h8b : rest.head? = some '='
              · rw [if_pos h8b]; exact withRight_no_iib _ _ (ih _ false)
              · rw [if_neg h8b]; exact withRight_no_iib _ _ (ih _ false)
            rw [if_neg h8]
            by_cases h9 : c = '!'
            · rw [if_pos h9]
              by_cases h9b : rest.head? = some '='
              · rw [if_pos h9b]; exact withRight_no_iib _ _ (ih _ false)
              · rw [if_neg h9b]; intro hh; cases hh
            rw [if_neg h9]
            by_cases h10 : c = '='
            · rw [if_pos h10]
              by_cases h10b : rest.head? = some '='
              · rw [if_pos h10b]; exact withRight_no_iib _ _ (ih _ false)
              · rw [if_neg h10b]; intro hh; cases hh
            rw [if_neg h10]
            intro hh; cases hh

theorem exprNew_no_iib (s : Str) :
    WgslExpression.new s ≠ .error .InvalidIfBlock := by
  unfold WgslExpression.new
  dsimp only
  have h := fromChars_no_iib
    (((trimChars s).filter (fun c => !rustIsWhitespace c)).length + 1)
    ((trimChars s).filter (fun c => !rustIsWhitespace c)) false
  cases hfc : fromChars (((trimChars s).filter (fun c => !rustIsWhitespace c)).length + 1)
      ((trimChars s).filter (fun c => !rustIsWhitespace c)) false with
  | error e =>
    dsimp only
    rw [hfc] at h
    intro hh
    cases hh
    exact h rfl
  | ok pr =>
    obtain ⟨o, rest⟩ := pr
    cases o with
    | none => intro hh; cases hh
    | some e =>
      dsimp only
      split_ifs <;> (intro hh; cases hh)

set_option maxHeartbeats 1000000 in
theorem fromLinesAux_good :
    ∀ (fuel : Nat) (acc : WgslSegment) (lines : List Str),
      goodFL (fromLinesAux fuel acc lines) := by
  intro fuel
  induction fuel with
  | zero => intro acc lines; simp [fromLinesAux, goodFL]
  | succ n ih =>
    intro acc lines
    cases lines with
    | nil => simp [fromLinesAux, goodFL]
    | cons l rest =>
      rw [fromLinesAux]
      dsimp only
      split_ifs with h1 h2 h3 h4 h5 h6
      · exact ih _ _
      · exact ih _ _
      · exact ih _ _
      · cases hexpr : WgslExpression.new (splitOnceSpace ((trimChars l).drop 3)).2 with
        | error e =>
          dsimp only [goodFL]
          intro heq
          apply exprNew_no_iib (splitOnceSpace ((trimChars l).drop 3)).2
          rw [hexpr, heq]
        | ok condition =>
          dsimp only
          split
          next e heq =>
            have hgood := ih (.Text []) rest
            rw [heq] at hgood
            exact hgood
          next seg rest2 heq =>
            split
            next e2 heq2 =>
              have hgood := ih (.Text []) rest2
              rw [heq2] at hgood
              exact hgood
            next seg2 fst rest3 heq2 => exact ih _ _
            next fst snd heq2 =>
              have hgood := ih (.Text []) rest2
              rw [heq2] at hgood
              simp [goodFL] at hgood
          next seg rest2 heq => exact ih _ _
          next seg rest2 heq => exact ih _ _
          next a hne1 hne2 hne3 heq =>
            have hgood := ih (.Text []) rest
            rw [heq] at hgood
            obtain ⟨o, r, rest2⟩ := a
            cases o with
            | none => simp [goodFL] at hgood
            | some seg =>
              cases r with
              | NoneReason => exact absurd rfl hgood.2
              | ElseOp => exact (hne1 seg rest2 rfl).elim
              | EndOp => exact (hne2 seg rest2 rfl).elim
              | EndOfFile => exact (hne3 seg rest2 rfl).elim
      · simp [goodFL]
      · simp [goodFL]
      · simp [goodFL]

/-- Claim C4 as amended: the segment parser never fails with `InvalidIfBlock`
— its recursive calls always return a present segment with end reason
ElseOp, EndOp or EndOfFile, so the error arms of the `if` handler are dead —
for every fuel, accumulator and line list. -/
theorem claim_C4 (fuel : Nat) (lines : List Str) : goodFL (fromLines fuel lines) :=
  fromLinesAux_good fuel (.Text []) lines

theorem digit_toLower (c : Char) (h : c.isDigit = true) : c.toLower = c := by
  simp [Char.isDigit] at h
  unfold Char.toLower
  rw [if_neg]
  intro hcon
  obtain ⟨h1, _⟩ := hcon
  have h2 := h.2
  rw [UInt32.le_def, BitVec.le_def] at h2
  have h3 : c.toNat ≤ 57 := by
    unfold Char.toNat UInt32.toNat
    simpa using h2
  omega

theorem digit_ne (c : Char) (h : c.isDigit = true) (d : Char) (hd : d.isDigit = false) :
    c ≠ d := by
  intro he
  rw [he] at h
  rw [h] at hd
  cases hd

theorem digit_not_ws (c : Char) (h : c.isDigit = true) : rustIsWhitespace c = false := by
  cases hw : rustIsWhitespace c with
  | false => rfl
  | true =>
    exfalso
    unfold rustIsWhitespace at hw
    have hmem : c ∈ wsChars := List.mem_of_elem_eq_true hw
    have hall : ∀ x ∈ wsChars, x.isDigit = false := by decide
    have hfd := hall c hmem
    rw [h] at hfd
    cases hfd

theorem digit_toNat_le (c : Char) (h : c.isDigit = true) :
    48 ≤ c.toNat ∧ c.toNat ≤ 57 := by
  simp [Char.isDigit] at h
  obtain ⟨h1, h2⟩ := h
  rw [UInt32.le_def, BitVec.le_def] at h1 h2
  constructor
  · unfold Char.toNat UInt32.toNat
    simpa using h1
  · unfold Char.toNat UInt32.toNat
    simpa using h2

theorem digitVal_digit (c : Char) (h : c.isDigit = true) :
    digitVal c = some (c.toNat - 48) ∧ c.toNat - 48 < 10 := by
  have hb := digit_toNat_le c h
  constructor
  · unfold digitVal
    rw [if_pos]
    · rfl
    · simp [Char.isDigit] at h
      constructor
      · rw [Char.le_def]
        exact h.1
      · rw [Char.le_def]
        exact h.2
  · omega

theorem dropWhile_ws_eq_self (s : Str) (h : ∀ c ∈ s, rustIsWhitespace c = false) :
    s.dropWhile rustIsWhitespace = s := by
  cases s with
  | nil => rfl
  | cons c cs =>
    rw [List.dropWhile_cons, h c (by simp)]
    simp

theorem trimChars_eq_self (s : Str) (h : ∀ c ∈ s, rustIsWhitespace c = false) :
    trimChars s = s := by
  unfold trimChars
  rw [dropWhile_ws_eq_self s h, dropWhile_ws_eq_self s.reverse
    (by intro c hc; exact h c (List.mem_reverse.mp hc)), List.reverse_reverse]

theorem filter_ws_eq_self (s : Str) (h : ∀ c ∈ s, rustIsWhitespace c = false) :
    s.filter (fun c => !rustIsWhitespace c) = s := by
  rw [List.filter_eq_self]
  intro c hc
  rw [h c hc]
  rfl

theorem scanNum_digits :
    ∀ (cs buffer : Str) (radix sliceStart : Nat),
      (∀ c ∈ cs, c.isDigit = true ∨ c = '_') →
      scanNum buffer false radix sliceStart cs =
        .ok (buffer ++ cs.filter Char.isDigit, false, radix, sliceStart, []) := by
  intro cs
  induction cs with
  | nil => intro buffer radix sliceStart _; simp [scanNum]
  | cons c rest ih =>
    intro buffer radix sliceStart hall
    rcases hall c (by simp) with hc | hc
    · rw [scanNum]
      rw [digit_toLower c hc, if_pos hc, ih (buffer ++ [c]) radix sliceStart
        (fun x hx => hall x (by simp [hx]))]
      rw [List.filter_cons_of_pos hc]
      simp
    · subst hc
      rw [scanNum]
      have h1 : ('_'.toLower).isDigit = false := by decide
      have h2 : '_'.toLower = '_' := by decide
      rw [h2, if_neg (by simp), if_pos rfl,
        ih buffer radix sliceStart (fun x hx => hall x (by simp [hx]))]
      rw [List.filter_cons_of_neg (by decide)]

theorem digitsVal_digits (radix : Nat) :
    ∀ (ds : Str) (a : Nat),
      (∀ c ∈ ds, c.isDigit = true ∧ (digitVal c).getD 0 < radix) →
      ds.foldl
        (fun acc c =>
          acc.bind fun a =>
          (digitVal c).bind fun v =>
          if v < radix then some (a * radix + v) else none)
        (some a) = some (ds.foldl (fun a c => a * radix + (digitVal c).getD 0) a) := by
  intro ds
  induction ds with
  | nil => intro a _; rfl
  | cons c rest ih =>
    intro a hall
    obtain ⟨hc, hv⟩ := hall c (by simp)
    obtain ⟨hdv, _⟩ := digitVal_digit c hc
    rw [List.foldl_cons, List.foldl_cons]
    have hstep : ((some a).bind fun a =>
        (digitVal c).bind fun v =>
        if v < radix then some (a * radix + v) else none) =
        some (a * radix + (digitVal c).getD 0) := by
      rw [hdv] at hv ⊢
      simp only [Option.getD_some] at hv
      simp [hv]
    rw [hstep, ih _ (fun x hx => hall x (by simp [hx]))]

theorem fromStrRadix_ok (ds : Str) (radix : Nat)
    (hne : ds ≠ [])
    (hall : ∀ c ∈ ds, c.isDigit = true ∧ (digitVal c).getD 0 < radix)
    (hbound : specBaseConversion radix ds ≤ 2 ^ 63 - 1) :
    fromStrRadix ds radix = .ok (Int.ofNat (specBaseConversion radix ds)) := by
  unfold fromStrRadix
  rw [if_neg hne]
  have hd : digitsVal radix ds = some (specBaseConversion radix ds) := by
    unfold digitsVal specBaseConversion
    exact digitsVal_digits radix ds 0 hall
  rw [hd]
  dsimp only
  rw [if_pos hbound]

theorem fromChars_digit_atom (fuel : Nat) (d : Char) (cs : Str) (hd : d.isDigit = true)
    (buffer2 : Str) (radix2 slice2 : Nat)
    (hscan : scanNum [d] false 10 0 cs = .ok (buffer2, false, radix2, slice2, [])) :
    fromChars (fuel + 1) (d :: cs) false =
      (fromStrRadix (buffer2.drop slice2) radix2).map
        (fun v => (some (.Literal (.Integer v)), [])) := by
  rw [fromChars.eq_def]
  dsimp only
  rw [if_neg (digit_ne d hd '!' (by decide)), if_neg (digit_ne d hd '~' (by decide)),
    if_neg (digit_ne d hd '-' (by decide)), if_neg (digit_ne d hd '(' (by decide)),
    if_pos hd, hscan]
  cases hfsr : fromStrRadix (buffer2.drop slice2) radix2 with
  | error e => simp [Except.bind, Except.map, hfsr]
  | ok v => simp [Except.bind, Except.map, hfsr]

theorem newDigitLit (d : Char) (cs : Str)
    (hd : d.isDigit = true)
    (hws : ∀ c ∈ (d :: cs), rustIsWhitespace c = false)
    (buffer2 : Str) (radix2 slice2 : Nat)
    (hscan : scanNum [d] false 10 0 cs = .ok (buffer2, false, radix2, slice2, []))
    (hok : fromStrRadix (buffer2.drop slice2) radix2 =
      .ok (Int.ofNat (specBaseConversion radix2 (buffer2.drop slice2)))) :
    WgslExpression.new (d :: cs) =
      .ok (.Literal (.Integer (specBaseConversion radix2 (buffer2.drop slice2)))) := by
  unfold WgslExpression.new
  dsimp only
  rw [trimChars_eq_self _ hws, filter_ws_eq_self _ hws]
  rw [fromChars_digit_atom (d :: cs).length d cs hd buffer2 radix2 slice2 hscan]
  rw [hok]
  rfl

theorem digitVal_getD_lt10 (c : Char) (h : c.isDigit = true) : (digitVal c).getD 0 < 10 := by
  obtain ⟨h1, h2⟩ := digitVal_digit c h
  rw [h1]
  simpa using h2

theorem litChars_not_ws (cs : Str) (h : ∀ c ∈ cs, c.isDigit = true ∨ c = '_') :
    ∀ c ∈ cs, rustIsWhitespace c = false := by
  intro c hc
  rcases h c hc with h1 | h1
  · exact digit_not_ws c h1
  · rw [h1]
    decide

/-- Claim C3 as amended: integer literals evaluate to the expected base
conversion for decimal input and for `0b`/`0o`/`0x` input whose digits are
all in `0-9` (with underscores skipped and the value within the `i64` range);
the parsed literal then evaluates to that integer in any environment. -/
theorem claim_C3 :
    (∀ (d : Char) (ds : Str),
      d.isDigit = true →
      (∀ c ∈ ds, c.isDigit = true ∨ c = '_') →
      specBaseConversion 10 (d :: ds.filter Char.isDigit) ≤ 2 ^ 63 - 1 →
      WgslExpression.new (d :: ds) =
        .ok (.Literal (.Integer (specBaseConversion 10 (d :: ds.filter Char.isDigit))))) ∧
    (∀ body : Str,
      (∀ c ∈ body, c.isDigit = true ∨ c = '_') →
      body.filter Char.isDigit ≠ [] →
      (∀ c ∈ body.filter Char.isDigit, (digitVal c).getD 0 < 2) →
      specBaseConversion 2 (body.filter Char.isDigit) ≤ 2 ^ 63 - 1 →
      WgslExpression.new ('0' :: 'b' :: body) =
        .ok (.Literal (.Integer (specBaseConversion 2 (body.filter Char.isDigit))))) ∧
    (∀ body : Str,
      (∀ c ∈ body, c.isDigit = true ∨ c = '_') →
      body.filter Char.isDigit ≠ [] →
      (∀ c ∈ body.filter Char.isDigit, (digitVal c).getD 0 < 8) →
      specBaseConversion 8 (body.filter Char.isDigit) ≤ 2 ^ 63 - 1 →
      WgslExpression.new ('0' :: 'o' :: body) =
        .ok (.Literal (.Integer (specBaseConversion 8 (body.filter Char.isDigit))))) ∧
    (∀ body : Str,
      (∀ c ∈ body, c.isDigit = true ∨ c = '_') →
      body.filter Char.isDigit ≠ [] →
      specBaseConversion 16 (body.filter Char.isDigit) ≤ 2 ^ 63 - 1 →
      WgslExpression.new ('0' :: 'x' :: body) =
        .ok (.Literal (.Integer (specBaseConversion 16 (body.filter Char.isDigit))))) ∧
    (∀ (v : Int) (st : WgslWorkspaceState),
      (WgslExpression.Literal (WgslLiteral.Integer v)).evaluate st = .ok (.Integer v)) := by
  have hprefixed : ∀ (p : Char) (radix : Nat),
      (∀ body : Str, scanNum ['0'] false 10 0 (p :: body) =
        scanNum ['0', p] false radix 2 body) →
      rustIsWhitespace p = false →
      ∀ body : Str,
        (∀ c ∈ body, c.isDigit = true ∨ c = '_') →
        body.filter Char.isDigit ≠ [] →
        (∀ c ∈ body.filter Char.isDigit, (digitVal c).getD 0 < radix) →
        specBaseConversion radix (body.filter Char.isDigit) ≤ 2 ^ 63 - 1 →
        WgslExpression.new ('0' :: p :: body) =
          .ok (.Literal (.Integer (specBaseConversion radix (body.filter Char.isDigit)))) := by
    intro p radix hpstep hpws body hds hne hlt hbound
    have hdrop : ((['0', p] ++ body.filter Char.isDigit).drop 2 : Str) =
        body.filter Char.isDigit := by
      simp
    have hws : ∀ c ∈ ('0' :: p :: body), rustIsWhitespace c = false := by
      intro c hc
      rw [List.mem_cons, List.mem_cons] at hc
      rcases hc with h1 | h1 | h1
      · rw [h1]; decide
      · rw [h1]; exact hpws
      · exact litChars_not_ws body hds c h1
    have hscan : scanNum ['0'] false 10 0 (p :: body) =
        .ok (['0', p] ++ body.filter Char.isDigit, false, radix, 2, []) := by
      rw [hpstep body, scanNum_digits body ['0', p] radix 2 hds]
    have hall : ∀ c ∈ ((['0', p] ++ body.filter Char.isDigit).drop 2 : Str),
        c.isDigit = true ∧ (digitVal c).getD 0 < radix := by
      rw [hdrop]
      intro c hc
      exact ⟨(List.mem_filter.mp hc).2, hlt c hc⟩
    have hok := fromStrRadix_ok ((['0', p] ++ body.filter Char.isDigit).drop 2) radix
      (by rw [hdrop]; exact hne) hall (by rw [hdrop]; exact hbound)
    have h := newDigitLit '0' (p :: body) (by decide) hws
      (['0', p] ++ body.filter Char.isDigit) radix 2 hscan hok
    rw [hdrop] at h
    exact h
  refine ⟨?_, ?_, ?_, ?_, fun v st => rfl⟩
  · intro d ds hd hds hbound
    have hws : ∀ c ∈ (d :: ds), rustIsWhitespace c = false := by
      intro c hc
      rw [List.mem_cons] at hc
      rcases hc with h1 | h1
      · rw [h1]; exact digit_not_ws d hd
      · exact litChars_not_ws ds hds c h1
    have hdrop : (([d] ++ ds.filter Char.isDigit).drop 0 : Str) =
        d :: ds.filter Char.isDigit := by simp
    have hall : ∀ c ∈ (([d] ++ ds.filter Char.isDigit).drop 0 : Str),
        c.isDigit = true ∧ (digitVal c).getD 0 < 10 := by
      rw [hdrop]
      intro c hc
      rw [List.mem_cons] at hc
      rcases hc with h1 | h1
      · rw [h1]; exact ⟨hd, digitVal_getD_lt10 d hd⟩
      · have hcd := (List.mem_filter.mp h1).2
        exact ⟨hcd, digitVal_getD_lt10 c hcd⟩
    have hok := fromStrRadix_ok (([d] ++ ds.filter Char.isDigit).drop 0) 10
      (by rw [hdrop]; simp) hall (by rw [hdrop]; exact hbound)
    have h := newDigitLit d ds hd hws ([d] ++ ds.filter Char.isDigit) 10 0
      (scanNum_digits ds [d] 10 0 hds) hok
    rw [hdrop] at h
    exact h
  · exact hprefixed 'b' 2 (fun body => rfl) (by decide)
  · exact hprefixed 'o' 8 (fun body => rfl) (by decide)
  · intro body hds hne hbound
    exact hprefixed 'x' 16 (fun b => rfl) (by decide) body hds hne
      (fun c hc => lt_trans (digitVal_getD_lt10 c (List.mem_filter.mp hc).2) (by norm_num))
      hbound

/-- Witness for claim C3 at the literals `1_000`, `0b1010`, `0o17`, `0x12`. -/
theorem claim_C3_witness :
    WgslExpression.new (str "1_000") = .ok (.Literal (.Integer 1000)) ∧
    WgslExpression.new (str "0b1010") = .ok (.Literal (.Integer 10)) ∧
    WgslExpression.new (str "0o17") = .ok (.Literal (.Integer 15)) ∧
    WgslExpression.new (str "0x12") = .ok (.Literal (.Integer 18)) := by
  refine ⟨?_, ?_, ?_, ?_⟩
  · have h := claim_C3.1 '1' (str "_000") (by decide) (by decide) (by decide)
    simpa using h
  · have h := claim_C3.2.1 (str "1010") (by decide) (by decide) (by decide) (by decide)
    simpa using h
  · have h := claim_C3.2.2.1 (str "17") (by decide) (by decide) (by decide) (by decide)
    simpa using h
  · have h := claim_C3.2.2.2.1 (str "12") (by decide) (by decide) (by decide)
    simpa using h

theorem splitNL_append (l : Str) (rest : Str) (h : '\n' ∉ l) :
    splitNL (l ++ '\n' :: rest) = l :: splitNL rest := by
  induction l with
  | nil => simp [splitNL]
  | cons c cs ih =>
    rw [List.cons_append, splitNL]
    rw [if_neg (by intro hc; exact h (by rw [hc]; simp))]
    rw [ih (by intro hc; exact h (by simp [hc]))]

theorem splitNL_join (lines : List Str) (h : ∀ l ∈ lines, '\n' ∉ l) :
    splitNL ((lines.map (fun l => l ++ ['\n'])).flatten) = lines ++ [[]] := by
  induction lines with
  | nil => simp [splitNL]
  | cons l rest ih =>
    rw [List.map_cons, List.flatten_cons, List.append_assoc, List.singleton_append,
      splitNL_append l _ (h l (by simp)), ih (fun x hx => h x (by simp [hx]))]
    rfl

theorem stripCR_eq_self (l : Str) (h : '\r' ∉ l) : stripCR l = l := by
  unfold stripCR
  rw [if_neg]
  intro hc
  apply h
  rw [← List.dropLast_append_getLast? _ hc]
  simp

theorem rustLines_join (lines : List Str)
    (h : ∀ l ∈ lines, '\n' ∉ l ∧ '\r' ∉ l) :
    rustLines ((lines.map (fun l => l ++ ['\n'])).flatten) = lines := by
  cases lines with
  | nil => rfl
  | cons l rest =>
    unfold rustLines
    rw [if_neg (by simp)]
    rw [splitNL_join _ (fun x hx => (h x hx).1)]
    have hshape : (l :: rest ++ [[]] : List Str) = (l :: rest) ++ [[]] := by simp
    dsimp only
    rw [hshape, List.getLast?_concat, if_pos rfl, List.dropLast_concat]
    rw [List.map_congr_left (fun x hx => stripCR_eq_self x (h x hx).2)]
    simp

theorem fromLinesAux_text :
    ∀ (lines : List Str) (acc : Str),
      (∀ l ∈ lines, trimChars l = l ∧ startsWith (str "//:") l = false) →
      fromLinesAux (lines.length + 1) (.Text acc) lines =
        .ok (some (.Text (acc ++ (lines.map (fun l => l ++ ['\n'])).flatten)),
          .EndOfFile, []) := by
  intro lines
  induction lines with
  | nil => intro acc _; simp [fromLinesAux]
  | cons l rest ih =>
    intro acc h
    obtain ⟨htrim, hsw⟩ := h l (by simp)
    rw [List.length_cons]
    rw [fromLinesAux]
    dsimp only
    rw [htrim]
    rw [if_pos (by rw [hsw]; rfl)]
    rw [concat.eq_2]
    rw [ih (acc ++ (l ++ ['\n'])) (fun x hx => h x (by simp [hx]))]
    simp

/-- Claim C1 as amended: a source built from lines that are non-empty,
already trimmed, carriage-return free and not directive lines, each
terminated by a newline, parses to a single `Text` segment holding exactly
that source, and rendering returns the source unchanged (for every fuel and
workspace).  This is the round trip the code actually provides: blank lines,
un-trimmed whitespace and a missing final newline are normalised away by the
parser. -/
theorem claim_C1 (lines : List Str) (fuel : Nat) (ws : WgslWorkspace)
    (h : ∀ l ∈ lines, l ≠ [] ∧ trimChars l = l ∧ startsWith (str "//:") l = false ∧
      '\n' ∉ l ∧ '\r' ∉ l) :
    WgslShader.new ((lines.map (fun l => l ++ ['\n'])).flatten) =
      .ok ⟨.Text ((lines.map (fun l => l ++ ['\n'])).flatten),
        ((lines.map (fun l => l ++ ['\n'])).flatten).length⟩ ∧
    (WgslShader.mk (.Text ((lines.map (fun l => l ++ ['\n'])).flatten))
        ((lines.map (fun l => l ++ ['\n'])).flatten).length).evalOut fuel ws =
      .ok ((lines.map (fun l => l ++ ['\n'])).flatten) := by
  constructor
  · unfold WgslShader.new
    rw [rustLines_join lines (fun l hl => ⟨(h l hl).2.2.2.1, (h l hl).2.2.2.2⟩)]
    rw [List.filter_eq_self.mpr (fun l hl => by
      rw [(h l hl).2.1]
      simp [(h l hl).1])]
    unfold fromLines
    dsimp only
    rw [fromLinesAux_text lines []
      (fun l hl => ⟨(h l hl).2.1, (h l hl).2.2.1⟩)]
    simp
  · unfold WgslShader.evalOut
    simp [writeSeg]

/-- Witness for claim C1 at the two-line source `"abc\nde f\n"`. -/
theorem claim_C1_witness :
    WgslShader.new (str "abc\nde f\n") =
      .ok ⟨.Text (str "abc\nde f\n"), 9⟩ ∧
    (WgslShader.mk (.Text (str "abc\nde f\n")) 9).evalOut 1 ⟨⟨[], []⟩, [], []⟩ =
      .ok (str "abc\nde f\n") := by
  have h := claim_C1 [str "abc", str "de f"] 1 ⟨⟨[], []⟩, [], []⟩ (by decide)
  simpa using h
